import Mathlib

/-!
Shallow embedding of the Traktor collection parser (package `traktor`,
file `collection.go`) together with a state model of its lazy loader.
Pure Go functions become Lean functions; the global mutable cache of the
loader becomes explicit state passing.  Strings are Lean strings, Go
`float64` fields are carried as `Float` values (they are only moved
around, never computed with), Go `int` fields are `Int`, Go `nil`-able
pointers and map lookups are `Option`.
-/

namespace Traktor

/-! ### Go standard library fragments used by `collection.go`

`collection.go` uses `strings.ReplaceAll`, `strings.TrimPrefix` and
`filepath.Join` (which cleans its result, `path.Clean` semantics).
These are embedded below for the Unix-like platforms the program
targets, where `os.PathSeparator` is the slash character.
-/

/-- Value of Go `os.PathSeparator` on the Unix-like platforms this program targets. -/
def pathSeparator : Char := '/'

/-- Value of Go `os.PathSeparator` as a one-character string, `string(os.PathSeparator)`. -/
def pathSeparatorStr : String := "/"

/-- Character-list worker for `strings.ReplaceAll`: scan left to right and
replace each non-overlapping occurrence of `old`.  The fuel argument is
instantiated with the length of the input, which suffices because every
step consumes at least one character of the input. -/
def replaceAllGo (old new : List Char) : Nat → List Char → List Char
  | _, [] => []
  | 0, s => s
  | fuel + 1, c :: rest =>
    if old.isPrefixOf (c :: rest) then
      new ++ replaceAllGo old new fuel (List.drop (old.length - 1) rest)
    else
      c :: replaceAllGo old new fuel rest

/-- Go's `strings.ReplaceAll s old new` (for the non-empty patterns used here). -/
def replaceAll (s old new : String) : String :=
  ⟨replaceAllGo old.data new.data s.data.length s.data⟩

/-- Go's `strings.TrimPrefix s pre`: drop `pre` from the front of `s` when it is
a prefix, otherwise return `s` unchanged. -/
def stringTrimPfx (s pre : String) : String :=
  if pre.data.isPrefixOf s.data then ⟨s.data.drop pre.data.length⟩ else s

/-- Split a character list into the segments between slashes. -/
def splitSegs : List Char → List Char → List String
  | [], cur => [⟨cur.reverse⟩]
  | c :: rest, cur =>
    if c = pathSeparator then ⟨cur.reverse⟩ :: splitSegs rest []
    else splitSegs rest (c :: cur)

/-- Segment processing of Go's `path.Clean`: skip empty and `.` segments;
`..` pops a previous segment when one is available, accumulates at the
front of a relative path, and is dropped at the root of a rooted path. -/
def cleanParts (rooted : Bool) : List String → List String → List String
  | acc, [] => acc.reverse
  | acc, seg :: rest =>
    if seg = "" ∨ seg = "." then cleanParts rooted acc rest
    else if seg = ".." then
      match acc with
      | [] => if rooted then cleanParts rooted [] rest else cleanParts rooted [".."] rest
      | top :: accTail =>
        if top = ".." then cleanParts rooted (".." :: top :: accTail) rest
        else cleanParts rooted accTail rest
    else cleanParts rooted (seg :: acc) rest

/-- Join path components with single slashes (no component is skipped,
mirroring `strings.Join` with a slash separator). -/
def joinParts : List String → String
  | [] => ""
  | [s] => s
  | s :: rest => s ++ "/" ++ joinParts rest

/-- Go's `path.Clean` (equal to `filepath.Clean` on Unix-like platforms). -/
def pathClean (p : String) : String :=
  match p.data with
  | [] => "."
  | c :: rest =>
    let rooted : Bool := c = pathSeparator
    let parts := cleanParts rooted [] (splitSegs (c :: rest) [])
    let joined := joinParts parts
    if rooted then "/" ++ joined
    else if joined = "" then "." else joined

/-- Go's `filepath.Join` on Unix-like platforms: join everything from the
first non-empty element on with slashes, then clean the result; all
elements empty yields the empty string. -/
def filepathJoin : List String → String
  | [] => ""
  | e :: rest => if e = "" then filepathJoin rest else pathClean (joinParts (e :: rest))

/-! ### Document model (`collection.go` struct declarations) -/

/-- Struct `Location` contains file path information. -/
structure Location where
  Dir : String
  File : String
  Volume : String
  VolumeID : String

/-- Struct `Album` contains album metadata. -/
structure Album where
  Title : String
  Track : Int
  OfTracks : Int

/-- Struct `Info` contains additional track information. -/
structure Info where
  Bitrate : Int
  Genre : String
  Label : String
  Comment : String
  Comment2 : String
  CoverArtID : String
  Key : String
  PlayCount : Int
  PlayTime : Int
  PlayTimeFloat : Float
  ImportDate : String
  LastPlayed : String
  Ranking : Int
  ReleaseDate : String
  Remixer : String
  Producer : String
  Mix : String
  FileSize : Int
  Flags : Int

/-- Struct `Tempo` contains BPM information. -/
structure Tempo where
  Bpm : Float
  BpmQuality : Float

/-- Struct `Loudness` contains loudness analysis data. -/
structure Loudness where
  PeakDb : Float
  PerceivedDb : Float
  AnalyzedDb : Float

/-- Struct `MusicalKey` contains key detection information. -/
structure MusicalKey where
  Value : Int

/-- Struct `CuePoint` represents a cue point or loop marker. -/
structure CuePoint where
  Name : String
  Type_ : Int
  Start : Float
  Len : Float
  Repeats : Int
  HotCue : Int

/-- Struct `LoopInfo` contains loop information. -/
structure LoopInfo where
  LoopStart : Float
  LoopEnd : Float

/-- Struct `Entry` represents a single track in the collection. -/
structure Entry where
  Artist : String
  Title : String
  AudioID : String
  ModifiedDate : String
  ModifiedTime : String
  Location : Location
  Album : Album
  Info : Info
  Tempo : Tempo
  Loudness : Loudness
  MusicalKey : MusicalKey
  CuePoints : List CuePoint
  LoopInfo : LoopInfo

/-- Struct `Collection` contains all tracks in the library. -/
structure Collection where
  Entries : Int
  Tracks : List Entry

/-- Struct `PrimaryKey` is the unique identifier for a track (the `Type_` field is
the Go `TYPE` attribute, renamed because `Type` is reserved in Lean). -/
structure PrimaryKey where
  Type_ : String
  Key : String

/-- Struct `PlaylistItem` represents a track reference in a playlist. -/
structure PlaylistItem where
  PrimaryKey : PrimaryKey

/-- Struct `PlaylistData` contains the actual playlist entries. -/
structure PlaylistData where
  Entries : Int
  Type_ : String
  UUID : String
  Items : List PlaylistItem

/-- Struct `Node` represents a folder or playlist in the playlist tree (a nested
inductive because `Subnodes` holds further nodes; the Go `TYPE` attribute
is the `nodeType` argument). -/
inductive Node where
  | mk (nodeType : String) (Name : String) (Count : Int)
       (Subnodes : List Node) (Playlist : Option PlaylistData)

/-- The `TYPE` attribute of a node. -/
def Node.nodeType : Node → String
  | .mk t _ _ _ _ => t

/-- The `NAME` attribute of a node. -/
def Node.Name : Node → String
  | .mk _ n _ _ _ => n

/-- The `COUNT` attribute of a node. -/
def Node.Count : Node → Int
  | .mk _ _ c _ _ => c

/-- The subnode list of a node. -/
def Node.Subnodes : Node → List Node
  | .mk _ _ _ s _ => s

/-- The optional `PLAYLIST` element of a node (`nil` pointer ↦ `none`). -/
def Node.Playlist : Node → Option PlaylistData
  | .mk _ _ _ _ p => p

/-- Struct `Playlists` contains the playlist structure. -/
structure Playlists where
  Node : Node

/-- Struct `NML` represents the root element of the Traktor `collection.nml` file. -/
structure NML where
  Version : String
  Collection : Collection
  Playlists : Playlists

/-! ### Output model -/

/-- Struct `Track` represents a simplified track for external use. -/
structure Track where
  Artist : String
  Title : String
  Album : String
  Genre : String
  Label : String
  Comment : String
  Remixer : String
  Producer : String
  BPM : Float
  Key : String
  MusicalKey : Int
  Rating : Int
  PlayCount : Int
  Duration : Float
  Bitrate : Int
  FileSize : Int
  FilePath : String
  FileName : String
  Volume : String
  ImportDate : String
  LastPlayed : String
  ReleaseDate : String
  PeakDb : Float
  PerceivedDb : Float
  CuePoints : List CuePoint
  PrimaryKey : String

/-- Struct `Playlist` represents a simplified playlist for external use.  The Go
`Tracks` field holds pointers into the collection's track storage; here the
referenced `Track` values are held directly. -/
structure Playlist where
  Name : String
  Path : String
  TrackKeys : List String
  Tracks : List Track

/-- Struct `TraktorCollection` holds the parsed collection data; the Go
`map[string]*Track` becomes a lookup function into `Option Track`. -/
structure TraktorCollection where
  Version : String
  Tracks : List Track
  Playlists : List Playlist
  trackMap : String → Option Track

/-! ### Primary key and file path builders -/

/-- Function `buildPrimaryKey` builds the primary key string used in playlist
references: `loc.Volume + loc.Dir + loc.File`. -/
def buildPrimaryKey (loc : Location) : String :=
  loc.Volume ++ loc.Dir ++ loc.File

/-- Function `buildFilePath` converts Traktor's path format to a native file path:
translate the `/:` separator tokens, strip one leading separator, then
root the path according to the volume name. -/
def buildFilePath (loc : Location) : String :=
  let dir := replaceAll loc.Dir "/:" pathSeparatorStr
  let dir := stringTrimPfx dir pathSeparatorStr
  if loc.Volume ≠ "" then
    if loc.Volume = "Macintosh HD" ∨ loc.Volume = ":" then
      filepathJoin ["/", dir, loc.File]
    else
      filepathJoin ["/Volumes", loc.Volume, dir, loc.File]
  else
    filepathJoin [dir, loc.File]

/-- Function `convertEntryToTrack` converts an NML `Entry` to a simplified `Track`. -/
def convertEntryToTrack (entry : Entry) : Track :=
  let primaryKey := buildPrimaryKey entry.Location
  let filePath := buildFilePath entry.Location
  { Artist := entry.Artist
    Title := entry.Title
    Album := entry.Album.Title
    Genre := entry.Info.Genre
    Label := entry.Info.Label
    Comment := entry.Info.Comment
    Remixer := entry.Info.Remixer
    Producer := entry.Info.Producer
    BPM := entry.Tempo.Bpm
    Key := entry.Info.Key
    MusicalKey := entry.MusicalKey.Value
    Rating := entry.Info.Ranking
    PlayCount := entry.Info.PlayCount
    Duration := entry.Info.PlayTimeFloat
    Bitrate := entry.Info.Bitrate
    FileSize := entry.Info.FileSize
    FilePath := filePath
    FileName := entry.Location.File
    Volume := entry.Location.Volume
    ImportDate := entry.Info.ImportDate
    LastPlayed := entry.Info.LastPlayed
    ReleaseDate := entry.Info.ReleaseDate
    PeakDb := entry.Loudness.PeakDb
    PerceivedDb := entry.Loudness.PerceivedDb
    CuePoints := entry.CuePoints
    PrimaryKey := primaryKey }

/-! ### Playlist tree extraction -/

/-- The body of the `for _, item := range node.Playlist.Items` loop of
`extractPlaylists`: record the referenced key, then append the track
when the key resolves in the track map and skip it silently otherwise. -/
def addPlaylistItem (tm : String → Option Track) (pl : Playlist) (item : PlaylistItem) : Playlist :=
  let key := item.PrimaryKey.Key
  let pl := { pl with TrackKeys := pl.TrackKeys ++ [key] }
  match tm key with
  | some track => { pl with Tracks := pl.Tracks ++ [track] }
  | none => pl

/-- Run the playlist item loop over all items of a `PLAYLIST` element. -/
def addPlaylistItems (tm : String → Option Track) (pl : Playlist) (items : List PlaylistItem) : Playlist :=
  items.foldl (addPlaylistItem tm) pl

mutual

/-- Function `extractPlaylists` recursively extracts playlists from the node tree:
compute the node's hierarchical path (root-marker names contribute no
segment), emit a playlist when the node is a `PLAYLIST` node carrying a
`PLAYLIST` element, then recurse into the subnodes. -/
def extractPlaylists (node : Node) (parentPath : String) (tm : String → Option Track) : List Playlist :=
  match node with
  | .mk nodeType name _count subs playlistData =>
    let currentPath :=
      if name ≠ "" ∧ name ≠ "$ROOT" then
        if parentPath = "" then name else parentPath ++ "/" ++ name
      else parentPath
    let playlists : List Playlist :=
      if nodeType = "PLAYLIST" then
        match playlistData with
        | some pd =>
          [addPlaylistItems tm
            { Name := name, Path := currentPath, TrackKeys := [], Tracks := [] } pd.Items]
        | none => []
      else []
    playlists ++ extractPlaylistsList subs currentPath tm

/-- The `for _, subnode := range node.Subnodes` loop of `extractPlaylists`:
append the playlists extracted from each subnode in source order. -/
def extractPlaylistsList (nodes : List Node) (path : String) (tm : String → Option Track) : List Playlist :=
  match nodes with
  | [] => []
  | n :: rest => extractPlaylists n path tm ++ extractPlaylistsList rest path tm

end

/-! ### Parsing (`ParseCollectionFromPath` after the XML decode) -/

/-- One iteration of the track loop of `ParseCollectionFromPath`: convert
the entry, append the track, and insert it into the track map under its
primary key (a Go map assignment, so a later entry with the same key
overwrites an earlier one). -/
def parseTrackStep (acc : List Track × (String → Option Track)) (entry : Entry) :
    List Track × (String → Option Track) :=
  let track := convertEntryToTrack entry
  (acc.1 ++ [track], fun k => if k = track.PrimaryKey then some track else acc.2 k)

/-- The pure part of `ParseCollectionFromPath`: everything after the XML
decoder produced the `NML` document (file opening and decoding are I/O and
are modelled by supplying the decoded document). -/
def parseNML (nml : NML) : TraktorCollection :=
  let tracksAndMap := nml.Collection.Tracks.foldl parseTrackStep ([], fun _ => none)
  { Version := nml.Version
    Tracks := tracksAndMap.1
    Playlists := extractPlaylists nml.Playlists.Node "" tracksAndMap.2
    trackMap := tracksAndMap.2 }

/-! ### Collection queries -/

/-- Method `GetTrackByKey` retrieves a track by its primary key (a Go map lookup
returning `nil` for an absent key). -/
def TraktorCollection.GetTrackByKey (c : TraktorCollection) (key : String) : Option Track :=
  c.trackMap key

/-- The scan loop of the `GetPlaylistByName` method: return a reference to
the first playlist whose name matches, `nil` when none does. -/
def findFirstByName : List Playlist → String → Option Playlist
  | [], _ => none
  | p :: rest, name => if p.Name = name then some p else findFirstByName rest name

/-- Method `GetPlaylistByName` finds a playlist by name (first exact match). -/
def TraktorCollection.GetPlaylistByName (c : TraktorCollection) (name : String) : Option Playlist :=
  findFirstByName c.Playlists name

/-! ### Lazy loader (`collection.go` package-level cache)

The Go package holds `var tc *TraktorCollection` and `var tcLoaded bool`;
every exported entry point runs `if !tcLoaded { tc, _ = ParseCollection();
tcLoaded = true }` before touching `tc`.  The cache is modelled as explicit
state; the outcome of `ParseCollection` (which performs I/O) is supplied as
a parameter `po`, with `none` standing for a failed parse that left `tc`
as a `nil` pointer.  Results of type `Option α` use `none` for the
nil-pointer dereference that Go would panic on. -/

/-- The package-level mutable state `tc` / `tcLoaded`. -/
structure LoaderState where
  tc : Option TraktorCollection
  tcLoaded : Bool

/-- The state before any loader call: `tc` is `nil`, `tcLoaded` is `false`. -/
def initialLoaderState : LoaderState := { tc := none, tcLoaded := false }

/-- The `if !tcLoaded` block shared by all loader entry points; the second
component counts how many times `ParseCollection` ran (0 or 1). -/
def ensureLoaded (po : Option TraktorCollection) (s : LoaderState) : LoaderState × Nat :=
  if s.tcLoaded then (s, 0) else ({ tc := po, tcLoaded := true }, 1)

/-- Function `GetPlaylists`: load on first use, then return `tc.Playlists`; the
result is `none` exactly when Go would dereference a `nil` `tc`. -/
def getPlaylistsM (po : Option TraktorCollection) (s : LoaderState) :
    LoaderState × Nat × Option (List Playlist) :=
  let (s1, n) := ensureLoaded po s
  (s1, n, s1.tc.map TraktorCollection.Playlists)

/-- Function `GetSortedPlaylistNames`: call `GetPlaylists`, collect the names and
sort them (`sort.Strings` is an ascending lexicographic sort). -/
def getSortedPlaylistNamesM (po : Option TraktorCollection) (s : LoaderState) :
    LoaderState × Nat × Option (List String) :=
  let (s1, n, r) := getPlaylistsM po s
  (s1, n, r.map (fun pls => (pls.map Playlist.Name).mergeSort (fun a b => a ≤ b)))

/-- Function `LoadCollection`: load on first use, then print `len(tc.Playlists)`;
the reported count is `none` exactly when Go would dereference `nil`. -/
def loadCollectionM (po : Option TraktorCollection) (s : LoaderState) :
    LoaderState × Nat × Option Nat :=
  let (s1, n) := ensureLoaded po s
  (s1, n, s1.tc.map (fun c => c.Playlists.length))

/-- Package-level `GetPlaylistByName`: load on first use, then delegate to
the collection method (whose receiver Go would dereference). -/
def getPlaylistByNameM (po : Option TraktorCollection) (s : LoaderState) (name : String) :
    LoaderState × Nat × Option (Option Playlist) :=
  let (s1, n) := ensureLoaded po s
  (s1, n, s1.tc.map (fun c => c.GetPlaylistByName name))

/-- One loader-facing call in a trace. -/
inductive LoaderOp where
  | getPlaylistsCall
  | getSortedPlaylistNamesCall
  | loadCollectionCall
  | getPlaylistByNameCall (name : String)

/-- The state transition and parse count of a single loader call. -/
def loaderEffect (po : Option TraktorCollection) (s : LoaderState) : LoaderOp → LoaderState × Nat
  | .getPlaylistsCall => ((getPlaylistsM po s).1, (getPlaylistsM po s).2.1)
  | .getSortedPlaylistNamesCall => ((getSortedPlaylistNamesM po s).1, (getSortedPlaylistNamesM po s).2.1)
  | .loadCollectionCall => ((loadCollectionM po s).1, (loadCollectionM po s).2.1)
  | .getPlaylistByNameCall name => ((getPlaylistByNameM po s name).1, (getPlaylistByNameM po s name).2.1)

/-- Run a sequence of loader calls, accumulating the number of parses. -/
def runLoader (po : Option TraktorCollection) : List LoaderOp → LoaderState × Nat → LoaderState × Nat
  | [], sn => sn
  | op :: rest, (s, n) =>
    let (s1, m) := loaderEffect po s op
    runLoader po rest (s1, n + m)

/-! ### Statement helpers (spec-side vocabulary used by the theorems) -/

/-- One path step of the spec: a child named `n` under parent path `p` has
path `p ++ "/" ++ n`, or just `n` when the parent path is empty. -/
def pathStep (p n : String) : String :=
  if p = "" then n else p ++ "/" ++ n

/-- A sample location used to exercise the track conversion. -/
def sampleLocation : Location :=
  ⟨"/:Music", "a.mp3", "Macintosh HD", "abc"⟩

/-- A sample collection entry used to exercise the track conversion. -/
def sampleEntry : Entry :=
  { Artist := "AR", Title := "TI", AudioID := "", ModifiedDate := "", ModifiedTime := ""
    Location := sampleLocation
    Album := ⟨"AL", 1, 10⟩
    Info := ⟨320, "G", "L", "C", "", "", "8a", 3, 200, 200.5, "2024/1/1", "2024/1/2", 5,
             "2023/1/1", "R", "P", "", 999, 0⟩
    Tempo := ⟨128.0, 1.0⟩
    Loudness := ⟨1.0, 2.0, 3.0⟩
    MusicalKey := ⟨5⟩
    CuePoints := []
    LoopInfo := ⟨0.0, 0.0⟩ }

/-- A sample one-entry document used to exercise the parser. -/
def sampleNML : NML :=
  ⟨"2.0", ⟨1, [sampleEntry]⟩, ⟨.mk "FOLDER" "$ROOT" 0 [] none⟩⟩

/-! ## Theorems -/

/-- The primary key of a converted track is the primary key built from the
entry's location. -/
lemma convert_primaryKey (e : Entry) :
    (convertEntryToTrack e).PrimaryKey = buildPrimaryKey e.Location := rfl

/-- Searching `find?` over an append searches the left list first. -/
lemma find?_append_cases {α : Type _} (p : α → Bool) :
    ∀ l1 l2 : List α,
      List.find? p (l1 ++ l2) =
        match List.find? p l1 with
        | some x => some x
        | none => List.find? p l2 := by
  intro l1 l2
  induction l1 with
  | nil => simp
  | cons a l ih =>
    cases hp : p a <;> simp [List.find?_cons, hp, ih]

/-- The track list accumulated by the parse loop is the converted entries
in source order, appended to the accumulator. -/
lemma parse_foldl_fst :
    ∀ (entries : List Entry) (acc : List Track) (m : String → Option Track),
      (entries.foldl parseTrackStep (acc, m)).1 = acc ++ entries.map convertEntryToTrack := by
  intro entries
  induction entries with
  | nil => intro acc m; simp
  | cons e rest ih =>
    intro acc m
    simp only [List.foldl_cons, List.map_cons]
    rw [parseTrackStep, ih]
    simp

/-- The track map accumulated by the parse loop sends a key to the
conversion of the last entry (in source order) whose primary key matches,
falling back to the starting map. -/
lemma parse_foldl_snd :
    ∀ (entries : List Entry) (acc : List Track) (m : String → Option Track) (k : String),
      (entries.foldl parseTrackStep (acc, m)).2 k =
        match entries.reverse.find? (fun e => buildPrimaryKey e.Location == k) with
        | some e => some (convertEntryToTrack e)
        | none => m k := by
  intro entries
  induction entries with
  | nil => intro acc m k; simp
  | cons e rest ih =>
    intro acc m k
    simp only [List.foldl_cons, List.reverse_cons]
    rw [parseTrackStep, ih, find?_append_cases]
    cases hf : rest.reverse.find? (fun e => buildPrimaryKey e.Location == k) with
    | some x => rfl
    | none =>
      simp only [List.find?_cons, List.find?_nil]
      by_cases hk : buildPrimaryKey e.Location = k
      · simp [hk, convert_primaryKey]
      · have hk2 : k ≠ (convertEntryToTrack e).PrimaryKey := by
          rw [convert_primaryKey]; exact fun h => hk h.symm
        have hbeq : (buildPrimaryKey e.Location == k) = false := beq_eq_false_iff_ne.mpr hk
        simp [hbeq, hk2]

/-- C2, counterexample: two locations that differ in their directory (and
volume) components produce the same primary key, so differing triples do
not always yield differing keys — delimiter-free concatenation is not
injective. -/
theorem c2_counterexample :
    buildPrimaryKey ⟨"b", "c", "a", ""⟩ = buildPrimaryKey ⟨"", "c", "ab", ""⟩ ∧
    Location.Dir ⟨"b", "c", "a", ""⟩ ≠ Location.Dir ⟨"", "c", "ab", ""⟩ :=
  ⟨rfl, by decide⟩

/-- C2, amended: the primary-key builder is the delimiter-free
concatenation `volume ++ dir ++ file`, and it is a pure function of the
(volume, dir, file) triple: identical triples always yield identical keys
(triples that differ may collide, as the counterexample shows). -/
theorem c2_primaryKey_concat :
    (∀ loc : Location, buildPrimaryKey loc = loc.Volume ++ loc.Dir ++ loc.File) ∧
    (∀ l1 l2 : Location, l1.Volume = l2.Volume → l1.Dir = l2.Dir → l1.File = l2.File →
      buildPrimaryKey l1 = buildPrimaryKey l2) := by
  constructor
  · intro loc; rfl
  · intro l1 l2 hv hd hf
    simp [buildPrimaryKey, hv, hd, hf]

/-- C2, witness: two locations with identical (volume, dir, file) triples
but different volume identifiers yield the same primary key. -/
theorem c2_primaryKey_concat_witness :
    buildPrimaryKey ⟨"/:d", "f.mp3", "v", "id1"⟩ = buildPrimaryKey ⟨"/:d", "f.mp3", "v", "id2"⟩ :=
  c2_primaryKey_concat.2 _ _ rfl rfl rfl

/-- C3: file-path reconstruction replaces every `/:` token in the
directory with the separator, strips one leading separator, and roots the
result at `/` for the volumes `Macintosh HD` and `:`, under
`/Volumes/<volume>` for any other non-empty volume, and with no root
prefix for an empty volume; in particular the three example triples of the
spec produce exactly the expected paths. -/
theorem c3_buildFilePath_spec :
    buildFilePath ⟨"/:Music/:House", "track.mp3", "Macintosh HD", ""⟩ = "/Music/House/track.mp3" ∧
    buildFilePath ⟨"/:Music/:House", "track.mp3", "Backup", ""⟩ =
      "/Volumes/Backup/Music/House/track.mp3" ∧
    buildFilePath ⟨"/:A", "b.mp3", "", ""⟩ = "A/b.mp3" ∧
    (∀ loc : Location, loc.Volume = "Macintosh HD" ∨ loc.Volume = ":" →
      buildFilePath loc =
        filepathJoin ["/", stringTrimPfx (replaceAll loc.Dir "/:" pathSeparatorStr) pathSeparatorStr,
          loc.File]) ∧
    (∀ loc : Location, loc.Volume ≠ "" → loc.Volume ≠ "Macintosh HD" → loc.Volume ≠ ":" →
      buildFilePath loc =
        filepathJoin ["/Volumes", loc.Volume,
          stringTrimPfx (replaceAll loc.Dir "/:" pathSeparatorStr) pathSeparatorStr, loc.File]) ∧
    (∀ loc : Location, loc.Volume = "" →
      buildFilePath loc =
        filepathJoin [stringTrimPfx (replaceAll loc.Dir "/:" pathSeparatorStr) pathSeparatorStr,
          loc.File]) := by
  refine ⟨rfl, rfl, rfl, ?_, ?_, ?_⟩
  · intro loc h
    rcases h with h | h <;> simp [buildFilePath, h]
  · intro loc h1 h2 h3
    simp [buildFilePath, h1, h2, h3]
  · intro loc h
    simp [buildFilePath, h]

/-- C3, witness: the `:` volume roots the reconstructed path at `/`. -/
theorem c3_buildFilePath_spec_witness :
    buildFilePath ⟨"/:X", "f.mp3", ":", ""⟩ = "/X/f.mp3" := by
  have h := c3_buildFilePath_spec.2.2.2.1 ⟨"/:X", "f.mp3", ":", ""⟩ (Or.inr rfl)
  exact h.trans (by rfl)

/-- C6: for every decoded document, parsing yields exactly one `Track` per
entry, in source order: the track list is the entry list mapped through
the conversion, the lengths agree, and the i-th track is the conversion of
the i-th entry. -/
theorem c6_tracks_order (nml : NML) :
    (parseNML nml).Tracks = nml.Collection.Tracks.map convertEntryToTrack ∧
    (parseNML nml).Tracks.length = nml.Collection.Tracks.length ∧
    (∀ (i : Nat) (h1 : i < (parseNML nml).Tracks.length)
        (h2 : i < nml.Collection.Tracks.length),
      (parseNML nml).Tracks.get ⟨i, h1⟩ =
        convertEntryToTrack (nml.Collection.Tracks.get ⟨i, h2⟩)) := by
  have hmap : (parseNML nml).Tracks = nml.Collection.Tracks.map convertEntryToTrack := by
    show (nml.Collection.Tracks.foldl parseTrackStep ([], fun _ => none)).1 = _
    rw [parse_foldl_fst]
    simp
  refine ⟨hmap, by rw [hmap]; simp, ?_⟩
  intro i h1 h2
  have := List.get_of_eq hmap ⟨i, h1⟩
  rw [this]
  simp

/-- C6, witness: parsing the one-entry sample document yields exactly its
converted entry, at index 0 and as the whole track list. -/
theorem c6_tracks_order_witness :
    (parseNML sampleNML).Tracks.get ⟨0, by decide⟩ =
      convertEntryToTrack (sampleNML.Collection.Tracks.get ⟨0, by decide⟩) ∧
    (parseNML sampleNML).Tracks.length = 1 :=
  ⟨(c6_tracks_order sampleNML).2.2 0 (by decide) (by decide),
   ((c6_tracks_order sampleNML).2.1).trans (by rfl)⟩

/-- C8: the key→track lookup is last-writer-wins: `GetTrackByKey` returns
the conversion of the last entry in document order whose primary key
matches the queried key (and `none` when no entry matches), so a later
duplicate entry overwrites an earlier one. -/
theorem c8_last_duplicate_wins (nml : NML) (k : String) :
    (parseNML nml).GetTrackByKey k =
      (nml.Collection.Tracks.reverse.find?
        (fun e => buildPrimaryKey e.Location == k)).map convertEntryToTrack := by
  show (nml.Collection.Tracks.foldl parseTrackStep ([], fun _ => none)).2 k = _
  rw [parse_foldl_snd]
  cases hf : nml.Collection.Tracks.reverse.find? (fun e => buildPrimaryKey e.Location == k) <;>
    simp [hf]

/-- A playlist returned by the name scan bears the queried name. -/
lemma findFirstByName_some :
    ∀ (l : List Playlist) (name : String) (p : Playlist),
      findFirstByName l name = some p → p.Name = name := by
  intro l name
  induction l with
  | nil => intro p h; simp [findFirstByName] at h
  | cons q rest ih =>
    intro p h
    by_cases hq : q.Name = name
    · rw [findFirstByName, if_pos hq] at h
      cases h; exact hq
    · rw [findFirstByName, if_neg hq] at h
      exact ih p h

/-- The name scan returns `none` exactly when no playlist bears the name. -/
lemma findFirstByName_none :
    ∀ (l : List Playlist) (name : String),
      findFirstByName l name = none ↔ ∀ p ∈ l, p.Name ≠ name := by
  intro l name
  induction l with
  | nil => simp [findFirstByName]
  | cons q rest ih =>
    by_cases hq : q.Name = name
    · rw [findFirstByName, if_pos hq]
      simp [hq]
    · rw [findFirstByName, if_neg hq]
      simp [hq, ih]

/-- The name scan returns the playlist at the first matching index. -/
lemma findFirstByName_first :
    ∀ (l : List Playlist) (name : String) (i : Nat) (h : i < l.length),
      (l.get ⟨i, h⟩).Name = name →
      (∀ (j : Nat) (hj : j < l.length), j < i → (l.get ⟨j, hj⟩).Name ≠ name) →
      findFirstByName l name = some (l.get ⟨i, h⟩) := by
  intro l name
  induction l with
  | nil => intro i h; exact absurd h (by simp)
  | cons q rest ih =>
    intro i h hi hfirst
    cases i with
    | zero =>
      have hq : q.Name = name := hi
      rw [findFirstByName, if_pos hq]
      rfl
    | succ i =>
      have hq : q.Name ≠ name := hfirst 0 (by simp) (Nat.succ_pos i)
      rw [findFirstByName, if_neg hq]
      exact ih i (by simpa using h) hi
        (fun j hj hlt => hfirst (j + 1) (by simpa using hj) (by omega))

/-- C9: `GetPlaylistByName` is an exact, case-sensitive first-match scan:
a returned playlist bears the queried name, `none` is returned exactly
when no playlist bears the name, and when index `i` holds the first
playlist with the name, that playlist is returned — so duplicates resolve
to the first occurrence in traversal order. -/
theorem c9_find_first_exact (c : TraktorCollection) (name : String) :
    (∀ p, c.GetPlaylistByName name = some p → p.Name = name) ∧
    (c.GetPlaylistByName name = none ↔ ∀ p ∈ c.Playlists, p.Name ≠ name) ∧
    (∀ (i : Nat) (h : i < c.Playlists.length),
      (c.Playlists.get ⟨i, h⟩).Name = name →
      (∀ (j : Nat) (hj : j < c.Playlists.length), j < i →
        (c.Playlists.get ⟨j, hj⟩).Name ≠ name) →
      c.GetPlaylistByName name = some (c.Playlists.get ⟨i, h⟩)) :=
  ⟨fun p => findFirstByName_some c.Playlists name p,
   findFirstByName_none c.Playlists name,
   fun i h => findFirstByName_first c.Playlists name i h⟩

/-- C9, witness: with two playlists both named `A`, the scan returns the
first one (the one with path `p1`). -/
theorem c9_find_first_exact_witness :
    TraktorCollection.GetPlaylistByName
      ⟨"", [], [⟨"A", "p1", [], []⟩, ⟨"A", "p2", [], []⟩], fun _ => none⟩ "A" =
      some ⟨"A", "p1", [], []⟩ :=
  (c9_find_first_exact ⟨"", [], [⟨"A", "p1", [], []⟩, ⟨"A", "p2", [], []⟩], fun _ => none⟩ "A").2.2
    0 (by decide) rfl (fun j hj hlt => absurd hlt (by omega))

/-- All four loader entry points perform the same cache update. -/
lemma loaderEffect_eq (po : Option TraktorCollection) (s : LoaderState) :
    ∀ op : LoaderOp, loaderEffect po s op = ensureLoaded po s := by
  intro op
  cases op <;>
    simp [loaderEffect, getPlaylistsM, getSortedPlaylistNamesM, loadCollectionM,
      getPlaylistByNameM]

/-- Once the cache flag is set, no loader call changes the state or
parses again. -/
lemma runLoader_loaded (po : Option TraktorCollection) :
    ∀ (ops : List LoaderOp) (s : LoaderState) (n : Nat), s.tcLoaded = true →
      runLoader po ops (s, n) = (s, n) := by
  intro ops
  induction ops with
  | nil => intro s n _; rfl
  | cons op rest ih =>
    intro s n hs
    rw [runLoader]
    rw [loaderEffect_eq, ensureLoaded, if_pos hs]
    exact ih s n hs

/-- C7: in any non-empty sequence of loader-facing calls starting from the
fresh process state, the parse runs exactly once — the first call performs
it and stores its outcome (success or failure alike), and every later call
reuses the cached outcome without re-parsing. -/
theorem c7_parse_once (po : Option TraktorCollection) (ops : List LoaderOp) (hne : ops ≠ []) :
    (runLoader po ops (initialLoaderState, 0)).2 = 1 ∧
    (runLoader po ops (initialLoaderState, 0)).1 = { tc := po, tcLoaded := true } := by
  cases ops with
  | nil => exact absurd rfl hne
  | cons op rest =>
    rw [runLoader, loaderEffect_eq]
    have h1 : ensureLoaded po initialLoaderState = ({ tc := po, tcLoaded := true }, 1) := rfl
    rw [h1]
    dsimp only
    rw [runLoader_loaded po rest { tc := po, tcLoaded := true } (0 + 1) rfl]
    exact ⟨rfl, rfl⟩

/-- C7, witness: a two-call trace (a failed parse followed by a second
call) still parses exactly once and caches the failure. -/
theorem c7_parse_once_witness :
    (runLoader none [LoaderOp.getPlaylistsCall, LoaderOp.loadCollectionCall]
      (initialLoaderState, 0)).2 = 1 :=
  (c7_parse_once none [LoaderOp.getPlaylistsCall, LoaderOp.loadCollectionCall]
    (List.cons_ne_nil _ _)).1

/-- C10: after the first parse fails (`ParseCollection` returned a nil
collection, cached with the loaded flag set), every loader-facing call
reaches `tc.Playlists` (or the `GetPlaylistByName` receiver) through a nil
pointer: the modelled result is `none`, standing for the nil-pointer
dereference Go panics on, not a well-defined empty result — and the very
first failing call panics the same way. -/
theorem c10_nil_deref_eval :
    (getPlaylistsM none ⟨none, true⟩).2.2 = none ∧
    (getSortedPlaylistNamesM none ⟨none, true⟩).2.2 = none ∧
    (loadCollectionM none ⟨none, true⟩).2.2 = none ∧
    (getPlaylistByNameM none ⟨none, true⟩ "X").2.2 = none ∧
    (getPlaylistsM none initialLoaderState).2.2 = none :=
  ⟨rfl, rfl, rfl, rfl, rfl⟩

/-- The item loop never changes a playlist's name. -/
lemma addPlaylistItems_name :
    ∀ (items : List PlaylistItem) (tm : String → Option Track) (pl : Playlist),
      (addPlaylistItems tm pl items).Name = pl.Name := by
  intro items
  induction items with
  | nil => intro tm pl; rfl
  | cons i rest ih =>
    intro tm pl
    have hstep : addPlaylistItems tm pl (i :: rest) =
        addPlaylistItems tm (addPlaylistItem tm pl i) rest := rfl
    rw [hstep, ih]
    cases htm : tm i.PrimaryKey.Key <;> simp [addPlaylistItem, htm]

/-- The item loop never changes a playlist's path. -/
lemma addPlaylistItems_path :
    ∀ (items : List PlaylistItem) (tm : String → Option Track) (pl : Playlist),
      (addPlaylistItems tm pl items).Path = pl.Path := by
  intro items
  induction items with
  | nil => intro tm pl; rfl
  | cons i rest ih =>
    intro tm pl
    have hstep : addPlaylistItems tm pl (i :: rest) =
        addPlaylistItems tm (addPlaylistItem tm pl i) rest := rfl
    rw [hstep, ih]
    cases htm : tm i.PrimaryKey.Key <;> simp [addPlaylistItem, htm]

/-- The item loop records every referenced key, in authored order. -/
lemma addPlaylistItems_trackKeys :
    ∀ (items : List PlaylistItem) (tm : String → Option Track) (pl : Playlist),
      (addPlaylistItems tm pl items).TrackKeys =
        pl.TrackKeys ++ items.map (fun i => i.PrimaryKey.Key) := by
  intro items
  induction items with
  | nil => intro tm pl; simp [addPlaylistItems]
  | cons i rest ih =>
    intro tm pl
    have hstep : addPlaylistItems tm pl (i :: rest) =
        addPlaylistItems tm (addPlaylistItem tm pl i) rest := rfl
    rw [hstep, ih]
    cases htm : tm i.PrimaryKey.Key <;> simp [addPlaylistItem, htm]

/-- The item loop resolves exactly the keys present in the track map, in
authored order, skipping unresolved keys silently. -/
lemma addPlaylistItems_tracks :
    ∀ (items : List PlaylistItem) (tm : String → Option Track) (pl : Playlist),
      (addPlaylistItems tm pl items).Tracks =
        pl.Tracks ++ items.filterMap (fun i => tm i.PrimaryKey.Key) := by
  intro items
  induction items with
  | nil => intro tm pl; simp [addPlaylistItems]
  | cons i rest ih =>
    intro tm pl
    have hstep : addPlaylistItems tm pl (i :: rest) =
        addPlaylistItems tm (addPlaylistItem tm pl i) rest := rfl
    rw [hstep, ih]
    cases htm : tm i.PrimaryKey.Key <;>
      simp [addPlaylistItem, htm, List.filterMap_cons]

/-- A node's subnode list is structurally smaller than the node. -/
lemma sizeOf_subnodes_lt (ty nm : String) (cnt : Int) (subs : List Node)
    (pd : Option PlaylistData) : sizeOf subs < sizeOf (Node.mk ty nm cnt subs pd) := by
  rw [Node.mk.sizeOf_spec]; omega

/-- The head of a node list is structurally smaller than the list. -/
lemma sizeOf_head_lt (n : Node) (rest : List Node) : sizeOf n < sizeOf (n :: rest) := by
  rw [List.cons.sizeOf_spec]; omega

/-- The tail of a node list is structurally smaller than the list. -/
lemma sizeOf_tail_lt (n : Node) (rest : List Node) : sizeOf rest < sizeOf (n :: rest) := by
  rw [List.cons.sizeOf_spec]; omega

/-- Shape of every playlist emitted by the tree walk (by strong induction
on the size of the node/forest): it is built by the item loop from empty
key and track accumulators, and its path extends the walk's starting path
by one `pathStep` per name, all of those names being non-root markers. -/
lemma extract_shape :
    ∀ k : Nat,
      (∀ node : Node, sizeOf node ≤ k →
        ∀ (parentPath : String) (tm : String → Option Track) (pl : Playlist),
          pl ∈ extractPlaylists node parentPath tm →
          ∃ (nm : String) (names : List String) (items : List PlaylistItem),
            (∀ s ∈ names, s ≠ "" ∧ s ≠ "$ROOT") ∧
            pl = addPlaylistItems tm
              { Name := nm, Path := names.foldl pathStep parentPath,
                TrackKeys := [], Tracks := [] } items) ∧
      (∀ nodes : List Node, sizeOf nodes ≤ k →
        ∀ (path : String) (tm : String → Option Track) (pl : Playlist),
          pl ∈ extractPlaylistsList nodes path tm →
          ∃ (nm : String) (names : List String) (items : List PlaylistItem),
            (∀ s ∈ names, s ≠ "" ∧ s ≠ "$ROOT") ∧
            pl = addPlaylistItems tm
              { Name := nm, Path := names.foldl pathStep path,
                TrackKeys := [], Tracks := [] } items) := by
  intro k
  induction k using Nat.strong_induction_on with
  | _ k IH =>
    constructor
    · intro node hsz parentPath tm pl hmem
      obtain ⟨ty, nm, cnt, subs, pd?⟩ := node
      simp only [extractPlaylists] at hmem
      rcases List.mem_append.mp hmem with hbase | hrec
      · cases pd? with
        | none => simp at hbase
        | some pd =>
          by_cases hty : ty = "PLAYLIST"
          · rw [if_pos hty] at hbase
            rw [List.mem_singleton] at hbase
            by_cases hnm : nm ≠ "" ∧ nm ≠ "$ROOT"
            · rw [if_pos hnm] at hbase
              refine ⟨nm, [nm], pd.Items, ?_, ?_⟩
              · intro s hs; rw [List.mem_singleton] at hs; subst hs; exact hnm
              · exact hbase
            · rw [if_neg hnm] at hbase
              exact ⟨nm, [], pd.Items, by simp, hbase⟩
          · rw [if_neg hty] at hbase
            simp at hbase
      · have hlt : sizeOf subs < k :=
          lt_of_lt_of_le (sizeOf_subnodes_lt ty nm cnt subs pd?) hsz
        obtain ⟨nm', names', items', hn', heq'⟩ :=
          (IH (sizeOf subs) hlt).2 subs le_rfl _ tm pl hrec
        by_cases hnm : nm ≠ "" ∧ nm ≠ "$ROOT"
        · rw [if_pos hnm] at heq'
          refine ⟨nm', nm :: names', items', ?_, ?_⟩
          · intro s hs
            rcases List.mem_cons.mp hs with rfl | hs
            · exact hnm
            · exact hn' s hs
          · rw [List.foldl_cons]
            exact heq'
        · rw [if_neg hnm] at heq'
          exact ⟨nm', names', items', hn', heq'⟩
    · intro nodes hsz path tm pl hmem
      cases nodes with
      | nil => simp [extractPlaylistsList] at hmem
      | cons n rest =>
        simp only [extractPlaylistsList] at hmem
        rcases List.mem_append.mp hmem with h | h
        · have hlt : sizeOf n < k := lt_of_lt_of_le (sizeOf_head_lt n rest) hsz
          exact (IH (sizeOf n) hlt).1 n le_rfl path tm pl h
        · have hlt : sizeOf rest < k := lt_of_lt_of_le (sizeOf_tail_lt n rest) hsz
          exact (IH (sizeOf rest) hlt).2 rest le_rfl path tm pl h

/-- Shape of a playlist emitted by `extractPlaylists`, entry-point form. -/
lemma mem_extractPlaylists_shape (node : Node) (parentPath : String)
    (tm : String → Option Track) (pl : Playlist)
    (h : pl ∈ extractPlaylists node parentPath tm) :
    ∃ (nm : String) (names : List String) (items : List PlaylistItem),
      (∀ s ∈ names, s ≠ "" ∧ s ≠ "$ROOT") ∧
      pl = addPlaylistItems tm
        { Name := nm, Path := names.foldl pathStep parentPath,
          TrackKeys := [], Tracks := [] } items :=
  (extract_shape (sizeOf node)).1 node le_rfl parentPath tm pl h

/-- The playlists of each member of a node list are an infix of the
playlists extracted from the whole list. -/
lemma extractList_infix :
    ∀ (subs : List Node) (s : Node), s ∈ subs →
      ∀ (path : String) (tm : String → Option Track),
        List.IsInfix (extractPlaylists s path tm) (extractPlaylistsList subs path tm) := by
  intro subs
  induction subs with
  | nil => intro s hs; simp at hs
  | cons n rest ih =>
    intro s hs path tm
    rcases List.mem_cons.mp hs with rfl | hs
    · exact ⟨[], extractPlaylistsList rest path tm, by simp [extractPlaylistsList]⟩
    · obtain ⟨l, r, hl⟩ := ih s hs path tm
      refine ⟨extractPlaylists n path tm ++ l, r, ?_⟩
      rw [extractPlaylistsList, ← hl]
      simp

/-- C1, counterexample: a node whose `PLAYLIST` element is present and
non-empty but whose type attribute is not `PLAYLIST` is not emitted as a
playlist — the walk produces nothing for it, so carrying playlist data
alone does not suffice for emission. -/
theorem c1_counterexample :
    extractPlaylists (.mk "FOLDER" "X" 0 [] (some ⟨1, "", "", [⟨⟨"", "k1"⟩⟩]⟩)) ""
      (fun _ => none) = [] := rfl

/-- C1, amended: every node of type `PLAYLIST` whose `PLAYLIST` element is
present is emitted as a playlist regardless of its subnodes, and subnode
descent still happens in full: the walk's output is the node's own
playlist followed by the walk of the subnode list, and each subnode's
output is an infix of the whole output. -/
theorem c1_playlist_and_descent (nm : String) (cnt : Int) (subs : List Node)
    (pd : PlaylistData) (parentPath : String) (tm : String → Option Track) :
    extractPlaylists (.mk "PLAYLIST" nm cnt subs (some pd)) parentPath tm =
      addPlaylistItems tm
        { Name := nm,
          Path := if nm ≠ "" ∧ nm ≠ "$ROOT" then pathStep parentPath nm else parentPath,
          TrackKeys := [], Tracks := [] } pd.Items ::
      extractPlaylistsList subs
        (if nm ≠ "" ∧ nm ≠ "$ROOT" then pathStep parentPath nm else parentPath) tm ∧
    ∀ s ∈ subs,
      List.IsInfix
        (extractPlaylists s
          (if nm ≠ "" ∧ nm ≠ "$ROOT" then pathStep parentPath nm else parentPath) tm)
        (extractPlaylists (.mk "PLAYLIST" nm cnt subs (some pd)) parentPath tm) := by
  refine ⟨rfl, ?_⟩
  intro s hs
  obtain ⟨l, r, hl⟩ := extractList_infix subs s hs
    (if nm ≠ "" ∧ nm ≠ "$ROOT" then pathStep parentPath nm else parentPath) tm
  refine ⟨addPlaylistItems tm
    { Name := nm,
      Path := if nm ≠ "" ∧ nm ≠ "$ROOT" then pathStep parentPath nm else parentPath,
      TrackKeys := [], Tracks := [] } pd.Items :: l, r, ?_⟩
  show _ = extractPlaylists (.mk "PLAYLIST" nm cnt subs (some pd)) parentPath tm
  rw [show extractPlaylists (.mk "PLAYLIST" nm cnt subs (some pd)) parentPath tm =
      addPlaylistItems tm
        { Name := nm,
          Path := if nm ≠ "" ∧ nm ≠ "$ROOT" then pathStep parentPath nm else parentPath,
          TrackKeys := [], Tracks := [] } pd.Items ::
      extractPlaylistsList subs
        (if nm ≠ "" ∧ nm ≠ "$ROOT" then pathStep parentPath nm else parentPath) tm from rfl,
    ← hl]
  simp

/-- C1, witness: a `PLAYLIST` node named `A` with a `PLAYLIST` subnode
named `B` emits its own playlist and still walks the subnode, whose output
is an infix of the whole output. -/
theorem c1_playlist_and_descent_witness :
    extractPlaylists
        (.mk "PLAYLIST" "A" 0 [.mk "PLAYLIST" "B" 0 [] (some ⟨0, "", "", []⟩)]
          (some ⟨0, "", "", []⟩)) "" (fun _ => none) =
      [{ Name := "A", Path := "A", TrackKeys := [], Tracks := [] },
       { Name := "B", Path := "A/B", TrackKeys := [], Tracks := [] }] ∧
    List.IsInfix
      (extractPlaylists (.mk "PLAYLIST" "B" 0 [] (some ⟨0, "", "", []⟩)) "A" (fun _ => none))
      (extractPlaylists
        (.mk "PLAYLIST" "A" 0 [.mk "PLAYLIST" "B" 0 [] (some ⟨0, "", "", []⟩)]
          (some ⟨0, "", "", []⟩)) "" (fun _ => none)) := by
  have h := c1_playlist_and_descent "A" 0 [.mk "PLAYLIST" "B" 0 [] (some ⟨0, "", "", []⟩)]
    ⟨0, "", "", []⟩ "" (fun _ => none)
  exact ⟨h.1.trans (by rfl),
    h.2 (.mk "PLAYLIST" "B" 0 [] (some ⟨0, "", "", []⟩)) (List.Mem.head _)⟩

/-- C4: in the tree walk, a playlist-bearing node's emitted path is its
parent's path when its name is a root marker (empty or `$ROOT`), and
otherwise its parent's path plus `/` plus its name (just its name when
the parent path is empty); and every emitted playlist's path is built
from the walk's starting path by such steps over non-root-marker names
only. -/
theorem c4_playlist_paths :
    (∀ (node : Node) (parentPath : String) (tm : String → Option Track) (pd : PlaylistData),
        node.nodeType = "PLAYLIST" → node.Playlist = some pd →
        ((extractPlaylists node parentPath tm).head?).map Playlist.Path =
          some (if node.Name = "" ∨ node.Name = "$ROOT" then parentPath
                else pathStep parentPath node.Name)) ∧
    (∀ (node : Node) (parentPath : String) (tm : String → Option Track) (pl : Playlist),
        pl ∈ extractPlaylists node parentPath tm →
        ∃ names : List String, (∀ s ∈ names, s ≠ "" ∧ s ≠ "$ROOT") ∧
          pl.Path = names.foldl pathStep parentPath) := by
  constructor
  · intro node parentPath tm pd hty hpd
    obtain ⟨ty, nm, cnt, subs, pd?⟩ := node
    have hty' : ty = "PLAYLIST" := hty
    have hpd' : pd? = some pd := hpd
    subst hty' hpd'
    simp only [extractPlaylists, Node.Name, eq_self_iff_true, if_true,
      List.singleton_append, List.head?_cons, Option.map_some']
    rw [addPlaylistItems_path]
    by_cases h : nm = "" ∨ nm = "$ROOT"
    · have hneg : ¬(nm ≠ "" ∧ nm ≠ "$ROOT") := by
        rcases h with h | h <;> simp [h]
      rw [if_neg hneg, if_pos h]
    · have hpos : nm ≠ "" ∧ nm ≠ "$ROOT" := by
        constructor <;> intro hc <;> exact h (by simp [hc])
      rw [if_pos hpos, if_neg h]
      rfl
  · intro node parentPath tm pl h
    obtain ⟨nm, names, items, hnames, heq⟩ :=
      mem_extractPlaylists_shape node parentPath tm pl h
    refine ⟨names, hnames, ?_⟩
    rw [heq, addPlaylistItems_path]

/-- C4, witness: a `PLAYLIST` node named `B` walked under parent path `A`
emits a playlist with path `A/B`. -/
theorem c4_playlist_paths_witness :
    ((extractPlaylists (.mk "PLAYLIST" "B" 0 [] (some ⟨0, "", "", []⟩)) "A"
        (fun _ => none)).head?).map Playlist.Path = some "A/B" := by
  have h := c4_playlist_paths.1 (.mk "PLAYLIST" "B" 0 [] (some ⟨0, "", "", []⟩)) "A"
    (fun _ => none) ⟨0, "", "", []⟩ rfl rfl
  exact h.trans (by rfl)

/-- C5: every playlist produced by extraction records exactly the authored
keys in authored order, resolves exactly those keys present in the track
map (in order), has a resolved list no longer than its key list, every
resolved track comes from some recorded key, and unresolved keys are
dropped without error (they stay in the key list but contribute nothing to
the resolved list). -/
theorem c5_playlist_resolution (node : Node) (parentPath : String)
    (tm : String → Option Track) (pl : Playlist)
    (h : pl ∈ extractPlaylists node parentPath tm) :
    (∃ items : List PlaylistItem,
        pl.TrackKeys = items.map (fun i => i.PrimaryKey.Key) ∧
        pl.Tracks = items.filterMap (fun i => tm i.PrimaryKey.Key)) ∧
    pl.Tracks = pl.TrackKeys.filterMap tm ∧
    pl.Tracks.length ≤ pl.TrackKeys.length ∧
    (∀ t ∈ pl.Tracks, ∃ k, k ∈ pl.TrackKeys ∧ tm k = some t) := by
  obtain ⟨nm, names, items, _, heq⟩ := mem_extractPlaylists_shape node parentPath tm pl h
  have hk : pl.TrackKeys = items.map (fun i => i.PrimaryKey.Key) := by
    rw [heq, addPlaylistItems_trackKeys]; simp
  have ht : pl.Tracks = items.filterMap (fun i => tm i.PrimaryKey.Key) := by
    rw [heq, addPlaylistItems_tracks]; simp
  have htk : pl.Tracks = pl.TrackKeys.filterMap tm := by
    rw [hk, ht, List.filterMap_map]
    rfl
  refine ⟨⟨items, hk, ht⟩, htk, ?_, ?_⟩
  · rw [htk]
    exact List.length_filterMap_le _ _
  · intro t htmem
    rw [htk] at htmem
    rcases List.mem_filterMap.mp htmem with ⟨k, hk1, hk2⟩
    exact ⟨k, hk1, hk2⟩

/-- C5, witness: for a playlist with keys `k1` and `k2` of which only `k1`
resolves, the resolved list is the filtered lookup of the key list and is
no longer than it. -/
theorem c5_playlist_resolution_witness :
    (addPlaylistItems
        (fun k => if k = "k1" then some (convertEntryToTrack sampleEntry) else none)
        { Name := "P", Path := "P", TrackKeys := [], Tracks := [] }
        [⟨⟨"", "k1"⟩⟩, ⟨⟨"", "k2"⟩⟩]).Tracks =
      (addPlaylistItems
        (fun k => if k = "k1" then some (convertEntryToTrack sampleEntry) else none)
        { Name := "P", Path := "P", TrackKeys := [], Tracks := [] }
        [⟨⟨"", "k1"⟩⟩, ⟨⟨"", "k2"⟩⟩]).TrackKeys.filterMap
        (fun k => if k = "k1" then some (convertEntryToTrack sampleEntry) else none) ∧
    (addPlaylistItems
        (fun k => if k = "k1" then some (convertEntryToTrack sampleEntry) else none)
        { Name := "P", Path := "P", TrackKeys := [], Tracks := [] }
        [⟨⟨"", "k1"⟩⟩, ⟨⟨"", "k2"⟩⟩]).Tracks.length ≤
      (addPlaylistItems
        (fun k => if k = "k1" then some (convertEntryToTrack sampleEntry) else none)
        { Name := "P", Path := "P", TrackKeys := [], Tracks := [] }
        [⟨⟨"", "k1"⟩⟩, ⟨⟨"", "k2"⟩⟩]).TrackKeys.length := by
  have h := c5_playlist_resolution
    (.mk "PLAYLIST" "P" 0 [] (some ⟨2, "", "", [⟨⟨"", "k1"⟩⟩, ⟨⟨"", "k2"⟩⟩]⟩)) ""
    (fun k => if k = "k1" then some (convertEntryToTrack sampleEntry) else none)
    (addPlaylistItems
      (fun k => if k = "k1" then some (convertEntryToTrack sampleEntry) else none)
      { Name := "P", Path := "P", TrackKeys := [], Tracks := [] }
      [⟨⟨"", "k1"⟩⟩, ⟨⟨"", "k2"⟩⟩])
    (List.Mem.head _)
  exact ⟨h.2.1, h.2.2.1⟩

/-- C8, witness: with two entries sharing one primary key (same location,
different artist), the lookup returns the conversion of the second
(later) entry. -/
theorem c8_last_duplicate_wins_witness :
    (parseNML ⟨"2.0", ⟨2, [sampleEntry, { sampleEntry with Artist := "AR2" }]⟩,
        ⟨.mk "FOLDER" "$ROOT" 0 [] none⟩⟩).GetTrackByKey "Macintosh HD/:Musica.mp3" =
      some (convertEntryToTrack { sampleEntry with Artist := "AR2" }) := by
  have h := c8_last_duplicate_wins
    ⟨"2.0", ⟨2, [sampleEntry, { sampleEntry with Artist := "AR2" }]⟩,
      ⟨.mk "FOLDER" "$ROOT" 0 [] none⟩⟩ "Macintosh HD/:Musica.mp3"
  exact h.trans (by rfl)

end Traktor
